import Mathlib

/-!
Verification of the CSV sales aggregation core of `csv-sales-api`.

The embedded functions mirror, in order:
  * `findColumnIndices` and `ProcessSalesCSV` from
    `internal/services/csv_service.go`;
  * `SaveResultFile` from `internal/services/file_service.go`.

The CSV reader is modelled at its interface: the stream of row reads is a
`List (Option (List String))`, where `some record` is a successfully
tokenized row and `none` is a row the underlying source failed to read
(the non-EOF error branch of `reader.Read()`).  Go `int` arithmetic is
64-bit two's complement, modelled on `Int` by explicit reduction modulo
`2 ^ 64` into the signed range.
-/

namespace CsvSales

/-- Whitespace as recognised by Go's `unicode.IsSpace` on Latin-1 code
points: space, tab, newline, vertical tab, form feed, carriage return,
next line (U+0085) and no-break space (U+00A0).  All inputs of interest
here are Latin-1. -/
def isSpaceChar (c : Char) : Bool :=
  c = ' ' || c = '\t' || c = '\n' || c.toNat = 11 || c.toNat = 12 ||
  c = '\r' || c.toNat = 133 || c.toNat = 160

/-- Go `strings.TrimSpace`: drop leading and trailing whitespace. -/
def trimSpace (s : String) : String :=
  String.mk (((s.data.dropWhile isSpaceChar).reverse.dropWhile isSpaceChar).reverse)

/-- Go `strings.ToLower` (character-wise lowering; the synonym lists are
pure ASCII, where this agrees with Go). -/
def toLowerStr (s : String) : String :=
  String.mk (s.data.map Char.toLower)

/-- The normalisation `strings.ToLower(strings.TrimSpace(col))` applied to
each header cell in `findColumnIndices`. -/
def normCol (s : String) : String :=
  toLowerStr (trimSpace s)

/-- `p` is a prefix of `l` (on character lists). -/
def prefLC : List Char → List Char → Bool
  | [], _ => true
  | _ :: _, [] => false
  | a :: as, b :: bs => a = b && prefLC as bs

/-- `p` occurs as a contiguous substring of `l`. -/
def subLC (p : List Char) : List Char → Bool
  | [] => p.isEmpty
  | c :: cs => prefLC p (c :: cs) || subLC p cs

/-- Go `strings.Contains sub s`. -/
def strContainsSub (s sub : String) : Bool :=
  subLC sub.data s.data

/-- The group-column (department) synonym test of `findColumnIndices`,
applied to an already-normalised cell. -/
def groupMatch (colLower : String) : Bool :=
  colLower = "department" || colLower = "department name" ||
  strContainsSub colLower "department" || colLower = "dept"

/-- The value-column (sales) synonym test of `findColumnIndices`, applied
to an already-normalised cell. -/
def valueMatch (colLower : String) : Bool :=
  colLower = "sales" || colLower = "total_sales" || colLower = "total sales" ||
  colLower = "number of sales" || colLower = "amount" || colLower = "revenue"

/-- The header scan of `findColumnIndices`: one left-to-right pass,
each role locking to its first match (`departmentIndex == -1 && ...`,
`salesIndex == -1 && ...`); the `-1` sentinel becomes `Option Nat`. -/
def findColsAux : Nat → Option Nat → Option Nat → List String → Option Nat × Option Nat
  | _, d, s, [] => (d, s)
  | i, d, s, col :: rest =>
    let colLower := normCol col
    let d2 := if d = none ∧ groupMatch colLower then some i else d
    let s2 := if s = none ∧ valueMatch colLower then some i else s
    findColsAux (i + 1) d2 s2 rest

/-- The two error kinds of `findColumnIndices`. -/
inductive ColErr where
  | missingGroup
  | missingValue
deriving DecidableEq, Repr

/-- `findColumnIndices` from `csv_service.go`: scan the header, then
report a missing department column before a missing sales column. -/
def findColumnIndices (header : List String) : Except ColErr (Nat × Nat) :=
  match findColsAux 0 none none header with
  | (none, _) => .error .missingGroup
  | (some _, none) => .error .missingValue
  | (some d, some s) => .ok (d, s)

/-- Reduce an integer into the signed 64-bit range, the value a Go `int`
holds after two's-complement wrap-around. -/
def wrap64 (x : Int) : Int :=
  (x + 2 ^ 63) % 2 ^ 64 - 2 ^ 63

/-- Go `int` addition (64-bit, wrapping). -/
def addInt64 (a b : Int) : Int :=
  wrap64 (a + b)

/-- Decimal digit value of a character, if it is a digit. -/
def digitVal (c : Char) : Option Nat :=
  if '0' ≤ c && c ≤ '9' then some (c.toNat - 48) else none

/-- The digit loop of Go `strconv.ParseUint` (base 10): every character
must be a digit; the exact value is accumulated. -/
def digitsToNatAux : Nat → List Char → Option Nat
  | acc, [] => some acc
  | acc, c :: cs =>
    match digitVal c with
    | none => none
    | some d => digitsToNatAux (acc * 10 + d) cs

/-- Go `strconv.Atoi` = `strconv.ParseInt(s, 10, 64)` on a 64-bit
platform: optional leading sign, at least one digit, no other characters,
and the value must fit a signed 64-bit integer (`ErrRange` otherwise,
which the caller treats the same as a syntax error). -/
def atoi (s : String) : Option Int :=
  match s.data with
  | [] => none
  | c :: cs =>
    let neg := c = '-'
    let digits := if c = '-' ∨ c = '+' then cs else c :: cs
    match digits with
    | [] => none
    | _ :: _ =>
      match digitsToNatAux 0 digits with
      | none => none
      | some n =>
        if neg then
          if (n : Int) ≤ 2 ^ 63 then some (-(n : Int)) else none
        else
          if (n : Int) ≤ 2 ^ 63 - 1 then some (n : Int) else none

/-- `DepartmentSummary` from `file_service.go`. -/
structure DepartmentSummary where
  department : String
  totalSales : Int
deriving DecidableEq, Repr

/-- The accumulator `map[string]int` of `ProcessSalesCSV`, as an
association list in insertion order.  `departmentSales[department] += sales`
adds with 64-bit wrap-around, reading a missing key as `0`. -/
def updateAcc : List (String × Int) → String → Int → List (String × Int)
  | [], k, v => [(k, addInt64 0 v)]
  | (k2, t) :: rest, k, v =>
    if k2 = k then (k2, addInt64 t v) :: rest
    else (k2, t) :: updateAcc rest k v

/-- The per-row body of the `ProcessSalesCSV` loop on a successfully read
record: skip on insufficient columns, empty trimmed department, or
unparseable sales value; otherwise accumulate. -/
def stepRow (departmentIndex salesIndex : Nat) (acc : List (String × Int))
    (record : List String) : List (String × Int) :=
  if record.length ≤ departmentIndex ∨ record.length ≤ salesIndex then acc
  else
    let department := trimSpace (record.getD departmentIndex "")
    let salesStr := trimSpace (record.getD salesIndex "")
    if department = "" then acc
    else
      match atoi salesStr with
      | none => acc
      | some sales => updateAcc acc department sales

/-- The error kinds `ProcessSalesCSV` can surface. -/
inductive ProcErr where
  | headerReadFailed
  | missingGroupColumn
  | missingValueColumn
  | unreadableRow (rowNumber : Nat)
  | emptyResult
deriving DecidableEq, Repr

/-- The data-row loop of `ProcessSalesCSV`: `rowNumber` counts rows read
so far (the header included, so it starts at `1`); a failed read aborts
with the 1-based number `rowNumber + 1` of the failing row. -/
def runRows (departmentIndex salesIndex : Nat) :
    Nat → List (String × Int) → List (Option (List String)) →
    Except ProcErr (List (String × Int))
  | _, acc, [] => .ok acc
  | rowNumber, _, none :: _ => .error (.unreadableRow (rowNumber + 1))
  | rowNumber, acc, some record :: rest =>
    runRows departmentIndex salesIndex (rowNumber + 1)
      (stepRow departmentIndex salesIndex acc record) rest

/-- `ProcessSalesCSV` over the stream of row reads: read the header,
resolve the two column indices, fold the data rows, and reject an empty
accumulator; otherwise emit one `DepartmentSummary` per accumulator
entry. -/
def processSalesCSV (input : List (Option (List String))) :
    Except ProcErr (List DepartmentSummary) :=
  match input with
  | [] => .error .headerReadFailed
  | none :: _ => .error .headerReadFailed
  | some header :: rows =>
    match findColumnIndices header with
    | .error .missingGroup => .error .missingGroupColumn
    | .error .missingValue => .error .missingValueColumn
    | .ok (departmentIndex, salesIndex) =>
      match runRows departmentIndex salesIndex 1 [] rows with
      | .error e => .error e
      | .ok acc =>
        if acc.length = 0 then .error .emptyResult
        else .ok (acc.map fun p => ⟨p.1, p.2⟩)

/-- The body of `SaveResultFile` from `file_service.go`, as the string it
writes: the fixed header line, then `fmt.Sprintf("%s,%d\n", ...)` per
summary. -/
def saveResultContent (summaries : List DepartmentSummary) : String :=
  summaries.foldl
    (fun out s => out ++ (s.department ++ "," ++ toString s.totalSales ++ "\n"))
    "Department Name,Total Number of Sales\n"

/-! Derived observers used to state the claims. -/

/-- The parsed value a record contributes, or `none` when the row is
skipped: the skip conditions of the loop body, read off `stepRow`. -/
def rowValue (departmentIndex salesIndex : Nat) (record : List String) : Option Int :=
  if record.length ≤ departmentIndex ∨ record.length ≤ salesIndex then none
  else if trimSpace (record.getD departmentIndex "") = "" then none
  else atoi (trimSpace (record.getD salesIndex ""))

/-- The trimmed group key of a record. -/
def rowKey (departmentIndex : Nat) (record : List String) : String :=
  trimSpace (record.getD departmentIndex "")

/-- Parsed values of the non-skipped rows, in order. -/
def parsedValues (departmentIndex salesIndex : Nat) (rows : List (List String)) : List Int :=
  rows.filterMap (rowValue departmentIndex salesIndex)

/-- Lookup in the accumulator. -/
def lookupAcc : List (String × Int) → String → Option Int
  | [], _ => none
  | (k2, t) :: rest, k => if k2 = k then some t else lookupAcc rest k

/-- Exact decimal value of a digit string. -/
def natVal (ds : List Char) : Nat :=
  ds.foldl (fun a c => a * 10 + (c.toNat - 48)) 0

/-- Index (counting from `i`) of the first cell satisfying `p`, the
first-match-wins discipline of the header scan. -/
def firstIdxFrom (p : String → Bool) : Nat → List String → Option Nat
  | _, [] => none
  | i, c :: rest => if p c then some i else firstIdxFrom p (i + 1) rest

/-- Keep the first option if set, else the second (the sentinel logic of
the header scan). -/
def orOpt : Option Nat → Option Nat → Option Nat
  | some x, _ => some x
  | none, y => y

/-- One data line of `SaveResultFile`, before its newline: the group key
written verbatim (no quoting), a comma, the decimal total. -/
def summaryLine (s : DepartmentSummary) : String :=
  s.department ++ "," ++ toString s.totalSales

/-- Concatenation of a list of strings. -/
def concatAll : List String → String
  | [] => ""
  | a :: rest => a ++ concatAll rest

/-- The output-sink format as the specification states it: the fixed
header line, then one line per record, each line (header included)
terminated by a single newline, nothing after the final record's
newline. -/
def specResultContent (summaries : List DepartmentSummary) : String :=
  concatAll ((("Department Name,Total Number of Sales" :: summaries.map summaryLine)).map
    (fun line => line ++ "\n"))

end CsvSales

namespace CsvSales

theorem stepRow_eq_match (d s : Nat) (acc : List (String × Int)) (r : List String) :
    stepRow d s acc r =
      match rowValue d s r with
      | none => acc
      | some v => updateAcc acc (rowKey d r) v := by
  by_cases hlen : r.length ≤ d ∨ r.length ≤ s
  · simp only [stepRow, rowValue, if_pos hlen]
  · by_cases hd : trimSpace (r.getD d "") = ""
    · simp only [stepRow, rowValue, if_neg hlen, if_pos hd]
    · simp only [stepRow, rowValue, rowKey, if_neg hlen, if_neg hd]

theorem stepRow_skip (d s : Nat) (acc : List (String × Int)) (r : List String)
    (h : rowValue d s r = none) : stepRow d s acc r = acc := by
  rw [stepRow_eq_match, h]

theorem stepRow_add (d s : Nat) (acc : List (String × Int)) (r : List String) (v : Int)
    (h : rowValue d s r = some v) : stepRow d s acc r = updateAcc acc (rowKey d r) v := by
  rw [stepRow_eq_match, h]

theorem lookupAcc_updateAcc_self (acc : List (String × Int)) (k : String) (v : Int) :
    lookupAcc (updateAcc acc k v) k = some (addInt64 ((lookupAcc acc k).getD 0) v) := by
  induction acc with
  | nil => simp [updateAcc, lookupAcc]
  | cons p rest ih =>
    obtain ⟨k2, t⟩ := p
    by_cases hk : k2 = k
    · subst hk
      simp [updateAcc, lookupAcc]
    · simp [updateAcc, lookupAcc, hk, ih]

theorem lookupAcc_updateAcc_other (acc : List (String × Int)) (k : String) (v : Int)
    (k2 : String) (h : k2 ≠ k) :
    lookupAcc (updateAcc acc k v) k2 = lookupAcc acc k2 := by
  induction acc with
  | nil => simp [updateAcc, lookupAcc, Ne.symm h]
  | cons p rest ih =>
    obtain ⟨k3, t⟩ := p
    by_cases hk : k3 = k
    · subst hk
      simp [updateAcc, lookupAcc, Ne.symm h]
    · simp [updateAcc, lookupAcc, hk, ih]

/-- C2: a data row with fewer cells than `max(groupIndex, valueIndex) + 1`
is skipped: it leaves the accumulator untouched, and the pass continues on
the remaining rows instead of aborting. -/
theorem shortRow_skipped (d s : Nat) (record : List String)
    (h : record.length < max d s + 1) :
    (∀ acc, stepRow d s acc record = acc) ∧
    (∀ n acc rest, runRows d s n acc (some record :: rest) =
      runRows d s (n + 1) acc rest) := by
  have hds : record.length ≤ d ∨ record.length ≤ s := by omega
  have hstep : ∀ acc, stepRow d s acc record = acc := by
    intro acc
    unfold stepRow
    rw [if_pos hds]
  exact ⟨hstep, fun n acc rest => by rw [show runRows d s n acc (some record :: rest) =
    runRows d s (n + 1) (stepRow d s acc record) rest from rfl, hstep]⟩

/-- Witness for C2 at a concrete short row. -/
theorem shortRow_skipped_witness :
    ([ "A" ] : List String).length < max 0 1 + 1 ∧
    stepRow 0 1 [("B", (3 : Int))] ["A"] = [("B", (3 : Int))] := by
  refine ⟨by decide, ?_⟩
  exact (shortRow_skipped 0 1 ["A"] (by decide)).1 [("B", 3)]


theorem updateAcc_cons_eq (k : String) (t v : Int) (rest : List (String × Int)) :
    updateAcc ((k, t) :: rest) k v = (k, addInt64 t v) :: rest := by
  simp [updateAcc]

theorem updateAcc_cons_ne (k2 k : String) (t v : Int) (rest : List (String × Int))
    (h : k2 ≠ k) :
    updateAcc ((k2, t) :: rest) k v = (k2, t) :: updateAcc rest k v := by
  simp [updateAcc, h]

theorem sum_updateAcc (acc : List (String × Int)) (k : String) (v : Int) :
    ((updateAcc acc k v).map Prod.snd).sum % 2 ^ 64 =
    ((acc.map Prod.snd).sum + v) % 2 ^ 64 := by
  induction acc with
  | nil =>
    simp only [updateAcc, List.map_cons, List.map_nil, List.sum_cons, List.sum_nil,
      addInt64, wrap64]
    omega
  | cons p rest ih =>
    obtain ⟨k2, t⟩ := p
    by_cases hk : k2 = k
    · subst hk
      rw [updateAcc_cons_eq]
      simp only [List.map_cons, List.sum_cons, addInt64, wrap64]
      omega
    · rw [updateAcc_cons_ne k2 k t v rest hk]
      simp only [List.map_cons, List.sum_cons]
      omega

theorem mem_map_fst_updateAcc (acc : List (String × Int)) (k : String) (v : Int)
    (x : String) :
    x ∈ (updateAcc acc k v).map Prod.fst ↔ x ∈ acc.map Prod.fst ∨ x = k := by
  induction acc with
  | nil => simp [updateAcc]
  | cons p rest ih =>
    obtain ⟨k2, t⟩ := p
    by_cases hk : k2 = k
    · subst hk
      rw [updateAcc_cons_eq]
      simp only [List.map_cons, List.mem_cons]
      tauto
    · rw [updateAcc_cons_ne k2 k t v rest hk]
      simp only [List.map_cons, List.mem_cons, ih]
      tauto

theorem nodup_map_fst_updateAcc (acc : List (String × Int)) (k : String) (v : Int)
    (h : (acc.map Prod.fst).Nodup) :
    ((updateAcc acc k v).map Prod.fst).Nodup := by
  induction acc with
  | nil => simp [updateAcc]
  | cons p rest ih =>
    obtain ⟨k2, t⟩ := p
    rw [List.map_cons, List.nodup_cons] at h
    by_cases hk : k2 = k
    · subst hk
      rw [updateAcc_cons_eq, List.map_cons, List.nodup_cons]
      exact h
    · rw [updateAcc_cons_ne k2 k t v rest hk, List.map_cons, List.nodup_cons]
      refine ⟨fun hmem => ?_, ih h.2⟩
      rcases (mem_map_fst_updateAcc rest k v k2).1 hmem with h1 | h1
      · exact h.1 h1
      · exact hk h1

theorem nodup_map_fst_stepRow (d s : Nat) (acc : List (String × Int))
    (r : List String) (h : (acc.map Prod.fst).Nodup) :
    ((stepRow d s acc r).map Prod.fst).Nodup := by
  rw [stepRow_eq_match]
  cases rowValue d s r with
  | none => exact h
  | some v => exact nodup_map_fst_updateAcc acc (rowKey d r) v h

theorem runRows_ok_sum (d s : Nat) (rows : List (Option (List String))) :
    ∀ (n : Nat) (acc acc2 : List (String × Int)),
      runRows d s n acc rows = .ok acc2 →
      (acc2.map Prod.snd).sum % 2 ^ 64 =
      ((acc.map Prod.snd).sum + (parsedValues d s (rows.filterMap id)).sum) % 2 ^ 64 := by
  induction rows with
  | nil =>
    intro n acc acc2 h
    simp only [runRows, Except.ok.injEq] at h
    subst h
    simp [parsedValues]
  | cons r rest ih =>
    intro n acc acc2 h
    cases r with
    | none => simp [runRows] at h
    | some record =>
      rw [show runRows d s n acc (some record :: rest) =
        runRows d s (n + 1) (stepRow d s acc record) rest from rfl] at h
      have hrec := ih (n + 1) _ _ h
      have hfm : (some record :: rest).filterMap id = record :: rest.filterMap id := by
        simp
      cases hv : rowValue d s record with
      | none =>
        rw [stepRow_skip d s acc record hv] at hrec
        rw [hfm]
        simpa [parsedValues, List.filterMap_cons, hv] using hrec
      | some v =>
        rw [stepRow_add d s acc record v hv] at hrec
        have hs := sum_updateAcc acc (rowKey d record) v
        rw [hfm]
        simp only [parsedValues, List.filterMap_cons, hv, List.sum_cons] at hrec ⊢
        omega

theorem runRows_ok_nodup (d s : Nat) (rows : List (Option (List String))) :
    ∀ (n : Nat) (acc acc2 : List (String × Int)),
      runRows d s n acc rows = .ok acc2 →
      (acc.map Prod.fst).Nodup → (acc2.map Prod.fst).Nodup := by
  induction rows with
  | nil =>
    intro n acc acc2 h hn
    simp only [runRows, Except.ok.injEq] at h
    subst h
    exact hn
  | cons r rest ih =>
    intro n acc acc2 h hn
    cases r with
    | none => simp [runRows] at h
    | some record =>
      rw [show runRows d s n acc (some record :: rest) =
        runRows d s (n + 1) (stepRow d s acc record) rest from rfl] at h
      exact ih (n + 1) _ _ h (nodup_map_fst_stepRow d s acc record hn)

/-- C1: whenever the pass completes successfully, every group key appears
in exactly one returned `DepartmentSummary`, and the sum of the returned
totals agrees with the sum of the parsed values of all rows that were not
skipped in 64-bit machine arithmetic (sums compared modulo `2 ^ 64`, the
arithmetic in which the Go `int` totals are accumulated). -/
theorem processSalesCSV_sum_invariant (header : List String)
    (rows : List (Option (List String))) (out : List DepartmentSummary)
    (h : processSalesCSV (some header :: rows) = .ok out) :
    (out.map DepartmentSummary.department).Nodup ∧
    ∀ d s, findColumnIndices header = .ok (d, s) →
      (out.map DepartmentSummary.totalSales).sum % 2 ^ 64 =
      (parsedValues d s (rows.filterMap id)).sum % 2 ^ 64 := by
  simp only [processSalesCSV] at h
  cases hf : findColumnIndices header with
  | error e =>
    rw [hf] at h
    cases e <;> simp at h
  | ok p =>
    obtain ⟨d, s⟩ := p
    rw [hf] at h
    dsimp only at h
    cases hr : runRows d s 1 [] rows with
    | error e => rw [hr] at h; simp at h
    | ok acc =>
      rw [hr] at h
      dsimp only at h
      by_cases hl : acc.length = 0
      · rw [if_pos hl] at h; simp at h
      · rw [if_neg hl] at h
        simp only [Except.ok.injEq] at h
        subst h
        have hdep : ((acc.map fun p => (⟨p.1, p.2⟩ : DepartmentSummary)).map
            DepartmentSummary.department) = acc.map Prod.fst := by
          simp [List.map_map, Function.comp]
        have htot : ((acc.map fun p => (⟨p.1, p.2⟩ : DepartmentSummary)).map
            DepartmentSummary.totalSales) = acc.map Prod.snd := by
          simp [List.map_map, Function.comp]
        constructor
        · rw [hdep]
          exact runRows_ok_nodup d s rows 1 [] acc hr (by simp)
        · intro d2 s2 hf2
          have hd2 : d = d2 ∧ s = s2 := by
            simpa using hf2
          obtain ⟨rfl, rfl⟩ := hd2
          rw [htot]
          have hsum := runRows_ok_sum d s rows 1 [] acc hr
          simpa using hsum

/-- Witness for C1 on a concrete successful pass. -/
theorem processSalesCSV_sum_invariant_witness :
    (([⟨"Electronics", 2500⟩, ⟨"Books", 300⟩] :
        List DepartmentSummary).map DepartmentSummary.department).Nodup := by
  have h : processSalesCSV
      [some ["department", "sales"], some ["Electronics", "1000"],
       some ["Electronics", "1500"], some ["Books", "300"]] =
      .ok [⟨"Electronics", 2500⟩, ⟨"Books", 300⟩] := by rfl
  exact (processSalesCSV_sum_invariant ["department", "sales"]
    [some ["Electronics", "1000"], some ["Electronics", "1500"], some ["Books", "300"]]
    [⟨"Electronics", 2500⟩, ⟨"Books", 300⟩] h).1

theorem runRows_unreadable (d s : Nat) (good : List (List String)) :
    ∀ (n : Nat) (acc : List (String × Int)) (rest : List (Option (List String))),
      runRows d s n acc (good.map some ++ none :: rest) =
      .error (.unreadableRow (n + good.length + 1)) := by
  induction good with
  | nil => intro n acc rest; rfl
  | cons r grest ih =>
    intro n acc rest
    have hlen : n + 1 + grest.length + 1 = n + (r :: grest).length + 1 := by
      simp only [List.length_cons]
      omega
    rw [List.map_cons, List.cons_append,
      show runRows d s n acc (some r :: (grest.map some ++ none :: rest)) =
        runRows d s (n + 1) (stepRow d s acc r) (grest.map some ++ none :: rest) from rfl,
      ih (n + 1) _ rest, hlen]

/-- C5: a row the source cannot read aborts the whole pass with the
unreadable-row error carrying the failing row's 1-based number (the header
is row 1, so after `k` readable data rows the failing row is `k + 2`), and
the call returns no partial result — only the error. -/
theorem unreadableRow_aborts (header : List String) (d s : Nat)
    (good : List (List String)) (rest : List (Option (List String)))
    (hcols : findColumnIndices header = .ok (d, s)) :
    processSalesCSV (some header :: (good.map some ++ none :: rest)) =
    .error (.unreadableRow (good.length + 2)) := by
  simp only [processSalesCSV, hcols]
  rw [runRows_unreadable d s good 1 [] rest,
    show 1 + good.length + 1 = good.length + 2 from by omega]

/-- Witness for C5: the read failure right after one readable data row is
reported as row 3 (header is row 1). -/
theorem unreadableRow_aborts_witness :
    findColumnIndices ["department", "sales"] = .ok (0, 1) ∧
    processSalesCSV [some ["department", "sales"], some ["A", "1"], none] =
      .error (.unreadableRow 3) := by
  refine ⟨by rfl, ?_⟩
  exact unreadableRow_aborts ["department", "sales"] 0 1 [["A", "1"]] [] (by rfl)

theorem runRows_all_skipped (d s : Nat) (rows : List (List String))
    (hskip : ∀ r ∈ rows, rowValue d s r = none) :
    ∀ (n : Nat) (acc : List (String × Int)),
      runRows d s n acc (rows.map some) = .ok acc := by
  induction rows with
  | nil => intro n acc; rfl
  | cons r rest ih =>
    intro n acc
    rw [List.map_cons,
      show runRows d s n acc (some r :: rest.map some) =
        runRows d s (n + 1) (stepRow d s acc r) (rest.map some) from rfl,
      stepRow_skip d s acc r (hskip r (by simp))]
    exact ih (fun r2 hr2 => hskip r2 (by simp [hr2])) (n + 1) acc

/-- C6: when the pass completes with an empty accumulator — no data rows
at all, or every data row skipped — the call fails with the empty-result
error. -/
theorem emptyResult_error (header : List String) (d s : Nat)
    (rows : List (List String))
    (hcols : findColumnIndices header = .ok (d, s))
    (hskip : ∀ r ∈ rows, rowValue d s r = none) :
    processSalesCSV (some header :: rows.map some) = .error .emptyResult := by
  simp only [processSalesCSV, hcols]
  rw [runRows_all_skipped d s rows hskip 1 []]
  rfl

/-- Witness for C6: a header-only input and an input whose only data row
has an unparseable value both yield the empty-result error. -/
theorem emptyResult_error_witness :
    processSalesCSV [some ["department", "sales"]] = .error .emptyResult ∧
    processSalesCSV [some ["department", "sales"], some ["A", "oops"]] =
      .error .emptyResult := by
  constructor
  · exact emptyResult_error ["department", "sales"] 0 1 [] (by rfl) (by simp)
  · exact emptyResult_error ["department", "sales"] 0 1 [["A", "oops"]] (by rfl)
      (by intro r hr; simp at hr; subst hr; rfl)

theorem findColsAux_or (hdr : List String) :
    ∀ (i : Nat) (d s : Option Nat),
      findColsAux i d s hdr =
        (orOpt d (firstIdxFrom (fun c => groupMatch (normCol c)) i hdr),
         orOpt s (firstIdxFrom (fun c => valueMatch (normCol c)) i hdr)) := by
  induction hdr with
  | nil => intro i d s; cases d <;> cases s <;> rfl
  | cons c rest ih =>
    intro i d s
    rw [show findColsAux i d s (c :: rest) =
      findColsAux (i + 1)
        (if d = none ∧ groupMatch (normCol c) then some i else d)
        (if s = none ∧ valueMatch (normCol c) then some i else s) rest from rfl, ih]
    cases d <;> cases s <;>
      by_cases hg : groupMatch (normCol c) <;>
      by_cases hv : valueMatch (normCol c) <;>
      simp [firstIdxFrom, orOpt, hg, hv]

theorem firstIdxFrom_shift (p : String → Bool) (hdr : List String) :
    ∀ i, firstIdxFrom p i hdr = (firstIdxFrom p 0 hdr).map (fun j => j + i) := by
  induction hdr with
  | nil => intro i; rfl
  | cons c rest ih =>
    intro i
    by_cases hc : p c
    · simp [firstIdxFrom, hc]
    · simp only [firstIdxFrom, if_neg hc]
      rw [ih (i + 1), ih 1]
      cases firstIdxFrom p 0 rest with
      | none => rfl
      | some j => simp; omega

theorem firstIdxFrom_zero_none (p : String → Bool) (hdr : List String) :
    firstIdxFrom p 0 hdr = none ↔ ∀ c ∈ hdr, p c = false := by
  induction hdr with
  | nil => simp [firstIdxFrom]
  | cons c rest ih =>
    by_cases hc : p c
    · simp [firstIdxFrom, hc]
    · rw [show firstIdxFrom p 0 (c :: rest) = firstIdxFrom p 1 rest from by
        simp [firstIdxFrom, hc], firstIdxFrom_shift p rest 1]
      simp [Option.map_eq_none', ih, List.forall_mem_cons, hc]

theorem firstIdxFrom_zero_spec (p : String → Bool) (hdr : List String) :
    ∀ g, firstIdxFrom p 0 hdr = some g →
      g < hdr.length ∧ p (hdr.getD g "") = true ∧
      ∀ j, j < g → p (hdr.getD j "") = false := by
  induction hdr with
  | nil => intro g h; simp [firstIdxFrom] at h
  | cons c rest ih =>
    intro g h
    by_cases hc : p c
    · simp only [firstIdxFrom, if_pos hc] at h
      obtain rfl : (0 : Nat) = g := by simpa using h
      refine ⟨by simp, by simpa using hc, ?_⟩
      intro j hj
      omega
    · simp only [firstIdxFrom, if_neg hc] at h
      rw [firstIdxFrom_shift p rest 1] at h
      cases h0 : firstIdxFrom p 0 rest with
      | none => rw [h0] at h; simp at h
      | some j =>
        rw [h0] at h
        simp only [Option.map_some', Option.some.injEq] at h
        obtain ⟨hlt, hp, hall⟩ := ih j h0
        subst h
        refine ⟨by simp; omega, by simpa using hp, ?_⟩
        intro k hk
        cases k with
        | zero => simpa using hc
        | succ k2 =>
          rw [List.getD_cons_succ]
          exact hall k2 (by omega)

theorem findColumnIndices_eq (header : List String) :
    findColumnIndices header =
      match firstIdxFrom (fun c => groupMatch (normCol c)) 0 header,
            firstIdxFrom (fun c => valueMatch (normCol c)) 0 header with
      | none, _ => .error .missingGroup
      | some _, none => .error .missingValue
      | some g, some v => .ok (g, v) := by
  unfold findColumnIndices
  rw [findColsAux_or header 0 none none]
  cases firstIdxFrom (fun c => groupMatch (normCol c)) 0 header <;>
    cases firstIdxFrom (fun c => valueMatch (normCol c)) 0 header <;> rfl

/-- C3: on a header containing at least one group-synonym cell and at
least one value-synonym cell, `findColumnIndices` succeeds and returns,
for each role independently, the index of the leftmost cell whose
trimmed, lower-cased form matches that role; matches after the first are
ignored. -/
theorem findColumnIndices_leftmost (header : List String)
    (h1 : ∃ c ∈ header, groupMatch (normCol c) = true)
    (h2 : ∃ c ∈ header, valueMatch (normCol c) = true) :
    ∃ g v, findColumnIndices header = .ok (g, v) ∧
      g < header.length ∧ groupMatch (normCol (header.getD g "")) = true ∧
      (∀ j, j < g → groupMatch (normCol (header.getD j "")) = false) ∧
      v < header.length ∧ valueMatch (normCol (header.getD v "")) = true ∧
      (∀ j, j < v → valueMatch (normCol (header.getD j "")) = false) := by
  cases hg : firstIdxFrom (fun c => groupMatch (normCol c)) 0 header with
  | none =>
    exfalso
    obtain ⟨c, hc, hpc⟩ := h1
    have := (firstIdxFrom_zero_none _ header).1 hg c hc
    simp [hpc] at this
  | some g =>
    cases hv : firstIdxFrom (fun c => valueMatch (normCol c)) 0 header with
    | none =>
      exfalso
      obtain ⟨c, hc, hpc⟩ := h2
      have := (firstIdxFrom_zero_none _ header).1 hv c hc
      simp [hpc] at this
    | some v =>
      obtain ⟨hg1, hg2, hg3⟩ := firstIdxFrom_zero_spec _ header g hg
      obtain ⟨hv1, hv2, hv3⟩ := firstIdxFrom_zero_spec _ header v hv
      refine ⟨g, v, ?_, hg1, hg2, hg3, hv1, hv2, hv3⟩
      rw [findColumnIndices_eq, hg, hv]

/-- Witness for C3 on a concrete header: `amount` resolves the value role
even though `sales`-like text appears later, and each role takes its
leftmost match. -/
theorem findColumnIndices_leftmost_witness :
    findColumnIndices ["name", "department", "amount", "dept", "sales"] = .ok (1, 2) := by
  obtain ⟨g, v, hok, hg1, hg2, hg3, hv1, hv2, hv3⟩ :=
    findColumnIndices_leftmost ["name", "department", "amount", "dept", "sales"]
      ⟨"department", by simp, by decide⟩ ⟨"amount", by simp, by decide⟩
  have hg5 : g < 5 := by simpa using hg1
  have hv5 : v < 5 := by simpa using hv1
  have hg0 : g = 1 := by
    interval_cases g
    · exact absurd hg2 (by decide)
    · rfl
    all_goals exact absurd (hg3 1 (by omega)) (by decide)
  have hv0 : v = 2 := by
    interval_cases v
    · exact absurd hv2 (by decide)
    · exact absurd hv2 (by decide)
    · rfl
    all_goals exact absurd (hv3 2 (by omega)) (by decide)
  rw [hg0, hv0] at hok
  exact hok

/-- C4: a header with no group-synonym cell fails with the missing-group
error (also when the value synonym is absent too, so the group error is
the one reported); a header with a group match but no value-synonym cell
fails with the distinct missing-value error; in both cases the result of
the whole pass is that error whatever the data rows are, i.e. the failure
happens before any data row is consumed. -/
theorem missingColumn_errors (header : List String) :
    ((∀ c ∈ header, groupMatch (normCol c) = false) →
      findColumnIndices header = .error .missingGroup ∧
      ∀ rows, processSalesCSV (some header :: rows) = .error .missingGroupColumn) ∧
    ((∃ c ∈ header, groupMatch (normCol c) = true) →
      (∀ c ∈ header, valueMatch (normCol c) = false) →
      findColumnIndices header = .error .missingValue ∧
      ∀ rows, processSalesCSV (some header :: rows) = .error .missingValueColumn) := by
  constructor
  · intro hnone
    have hg : firstIdxFrom (fun c => groupMatch (normCol c)) 0 header = none :=
      (firstIdxFrom_zero_none _ header).2 hnone
    have hfe : findColumnIndices header = .error .missingGroup := by
      rw [findColumnIndices_eq, hg]
    exact ⟨hfe, fun rows => by simp only [processSalesCSV, hfe]⟩
  · intro hex hnone
    have hv : firstIdxFrom (fun c => valueMatch (normCol c)) 0 header = none :=
      (firstIdxFrom_zero_none _ header).2 hnone
    cases hg : firstIdxFrom (fun c => groupMatch (normCol c)) 0 header with
    | none =>
      exfalso
      obtain ⟨c, hc, hpc⟩ := hex
      have := (firstIdxFrom_zero_none _ header).1 hg c hc
      simp [hpc] at this
    | some g =>
      have hfe : findColumnIndices header = .error .missingValue := by
        rw [findColumnIndices_eq, hg, hv]
      exact ⟨hfe, fun rows => by simp only [processSalesCSV, hfe]⟩

/-- Witness for C4: scenario E's header has no group synonym and reports
the group error (even though the value synonym is also absent), and a
header with only a department column reports the value error; neither
outcome depends on the data rows. -/
theorem missingColumn_errors_witness :
    processSalesCSV [some ["name", "age"], some ["John", "25"]] =
      .error .missingGroupColumn ∧
    processSalesCSV [some ["department"], some ["A", "1"]] =
      .error .missingValueColumn := by
  constructor
  · exact ((missingColumn_errors ["name", "age"]).1 (by decide)).2
      [some ["John", "25"]]
  · exact ((missingColumn_errors ["department"]).2 ⟨"department", by simp, by decide⟩
      (by decide)).2 [some ["A", "1"]]

/-- C7: on a row with enough cells the pass skips exactly when the
trimmed group cell is empty or the trimmed value cell does not parse as a
signed base-10 integer; otherwise the parsed value is added (64-bit
machine addition) to the accumulator entry keyed by the trimmed,
case-sensitive group key, the entry being read as 0 when absent, and no
other entry changes. -/
theorem rowStep_characterisation (d s : Nat) (record : List String)
    (acc : List (String × Int)) (h : max d s < record.length) :
    (trimSpace (record.getD d "") = "" → stepRow d s acc record = acc) ∧
    (atoi (trimSpace (record.getD s "")) = none → stepRow d s acc record = acc) ∧
    (∀ v, trimSpace (record.getD d "") ≠ "" →
      atoi (trimSpace (record.getD s "")) = some v →
      lookupAcc (stepRow d s acc record) (trimSpace (record.getD d "")) =
        some (addInt64 ((lookupAcc acc (trimSpace (record.getD d ""))).getD 0) v) ∧
      ∀ k, k ≠ trimSpace (record.getD d "") →
        lookupAcc (stepRow d s acc record) k = lookupAcc acc k) := by
  have hlen : ¬(record.length ≤ d ∨ record.length ≤ s) := by omega
  refine ⟨fun hd => ?_, fun hv => ?_, fun v hd hv => ?_⟩
  · apply stepRow_skip
    unfold rowValue
    rw [if_neg hlen, if_pos hd]
  · apply stepRow_skip
    unfold rowValue
    rw [if_neg hlen]
    by_cases hd : trimSpace (record.getD d "") = ""
    · rw [if_pos hd]
    · rw [if_neg hd]
      exact hv
  · have hsome : rowValue d s record = some v := by
      unfold rowValue
      rw [if_neg hlen, if_neg hd]
      exact hv
    rw [stepRow_add d s acc record v hsome]
    exact ⟨lookupAcc_updateAcc_self acc _ v,
      fun k hk => lookupAcc_updateAcc_other acc _ v k hk⟩

/-- Witness for C7: a fresh key is created from 0 and an existing key is
untouched. -/
theorem rowStep_characterisation_witness :
    lookupAcc (stepRow 0 1 [("B", (7 : Int))] ["A", " 42 "]) "A" = some 42 ∧
    lookupAcc (stepRow 0 1 [("B", (7 : Int))] ["A", " 42 "]) "B" = some 7 := by
  have h := (rowStep_characterisation 0 1 ["A", " 42 "] [("B", 7)]
    (by decide)).2.2 42 (by decide) (by rfl)
  refine ⟨?_, ?_⟩
  · have h1 := h.1
    rw [show trimSpace ((["A", " 42 "] : List String).getD 0 "") = "A" from rfl] at h1
    rw [h1]
    rfl
  · have h2 := h.2 "B" (by decide)
    rw [h2]
    rfl

theorem valueMatch_not_groupMatch (cl : String) (h : valueMatch cl = true) :
    groupMatch cl = false := by
  unfold valueMatch at h
  simp only [Bool.or_eq_true, decide_eq_true_eq] at h
  rcases h with ((((h | h) | h) | h) | h) | h <;> subst h <;> decide

theorem findColsAux_distinct (hdr : List String) :
    ∀ (i : Nat) (d s : Option Nat),
      (∀ x, d = some x → x < i) → (∀ x, s = some x → x < i) →
      (∀ x y, d = some x → s = some y → x ≠ y) →
      ∀ g v, findColsAux i d s hdr = (some g, some v) → g ≠ v := by
  induction hdr with
  | nil =>
    intro i d s hd hs hne g v h
    simp only [findColsAux, Prod.mk.injEq] at h
    exact hne g v h.1 h.2
  | cons c rest ih =>
    intro i d s hd hs hne g v h
    rw [show findColsAux i d s (c :: rest) =
      findColsAux (i + 1)
        (if d = none ∧ groupMatch (normCol c) then some i else d)
        (if s = none ∧ valueMatch (normCol c) then some i else s) rest from rfl] at h
    refine ih (i + 1) _ _ ?_ ?_ ?_ g v h
    · intro x hx
      by_cases hcd : d = none ∧ groupMatch (normCol c)
      · rw [if_pos hcd] at hx
        have hix : i = x := by simpa using hx
        omega
      · rw [if_neg hcd] at hx
        exact Nat.lt_succ_of_lt (hd x hx)
    · intro x hx
      by_cases hcs : s = none ∧ valueMatch (normCol c)
      · rw [if_pos hcs] at hx
        have hix : i = x := by simpa using hx
        omega
      · rw [if_neg hcs] at hx
        exact Nat.lt_succ_of_lt (hs x hx)
    · intro x y hx hy
      by_cases hcd : d = none ∧ groupMatch (normCol c) <;>
        by_cases hcs : s = none ∧ valueMatch (normCol c)
      · exact absurd hcd.2 (by simp [valueMatch_not_groupMatch _ hcs.2])
      · rw [if_pos hcd] at hx
        rw [if_neg hcs] at hy
        have hxi : x = i := by simpa using hx.symm
        have := hs y hy
        omega
      · rw [if_neg hcd] at hx
        rw [if_pos hcs] at hy
        have hyi : y = i := by simpa using hy.symm
        have := hd x hx
        omega
      · rw [if_neg hcd] at hx
        rw [if_neg hcs] at hy
        exact hne x y hx hy

/-- C9: no normalised header cell can satisfy both the group-synonym test
and the value-synonym test, so whenever `findColumnIndices` succeeds the
two returned indices are distinct. -/
theorem resolvedIndices_distinct :
    (∀ cl : String, valueMatch cl = true → groupMatch cl = false) ∧
    ∀ header g v, findColumnIndices header = .ok (g, v) → g ≠ v := by
  refine ⟨valueMatch_not_groupMatch, ?_⟩
  intro header g v h
  unfold findColumnIndices at h
  cases hfa : findColsAux 0 none none header with
  | mk od os =>
    rw [hfa] at h
    cases od with
    | none => simp at h
    | some g2 =>
      cases os with
      | none => simp at h
      | some v2 =>
        simp only [Except.ok.injEq, Prod.mk.injEq] at h
        obtain ⟨rfl, rfl⟩ := h
        exact findColsAux_distinct header 0 none none (by simp) (by simp) (by simp)
          g2 v2 hfa

/-- Witness for C9: a concrete successful resolution has distinct
indices. -/
theorem resolvedIndices_distinct_witness : (0 : Nat) ≠ 1 := by
  exact resolvedIndices_distinct.2 ["department", "sales"] 0 1 (by rfl)

theorem foldl_append_concat (f : DepartmentSummary → String)
    (l : List DepartmentSummary) :
    ∀ init : String,
      l.foldl (fun out s => out ++ f s) init = init ++ concatAll (l.map f) := by
  induction l with
  | nil =>
    intro init
    rw [List.foldl_nil, List.map_nil, show concatAll [] = "" from rfl,
      String.append_empty]
  | cons a rest ih =>
    intro init
    rw [List.foldl_cons, ih (init ++ f a), List.map_cons,
      show concatAll (f a :: rest.map f) = f a ++ concatAll (rest.map f) from rfl,
      String.append_assoc]

/-- C8: the string `SaveResultFile` writes is exactly the fixed header
line followed by one `<group>,<total>` line per record, the group key
unquoted, every line (header included) ending in a single newline and
nothing following the last record's newline. -/
theorem saveResultContent_format (summaries : List DepartmentSummary) :
    saveResultContent summaries = specResultContent summaries := by
  have h := foldl_append_concat (fun s => summaryLine s ++ "\n") summaries
    "Department Name,Total Number of Sales\n"
  have h2 : specResultContent summaries =
      "Department Name,Total Number of Sales\n" ++
        concatAll (summaries.map (fun s => summaryLine s ++ "\n")) := by
    unfold specResultContent
    rw [List.map_cons,
      show concatAll (("Department Name,Total Number of Sales" ++ "\n") ::
        (summaries.map summaryLine).map (fun line => line ++ "\n")) =
        ("Department Name,Total Number of Sales" ++ "\n") ++
        concatAll ((summaries.map summaryLine).map (fun line => line ++ "\n")) from rfl,
      List.map_map]
    rfl
  rw [h2]
  exact h

theorem digitsToNatAux_digits (ds : List Char)
    (hds : ∀ c ∈ ds, '0' ≤ c ∧ c ≤ '9') :
    ∀ acc, digitsToNatAux acc ds =
      some (ds.foldl (fun a c => a * 10 + (c.toNat - 48)) acc) := by
  induction ds with
  | nil => intro acc; rfl
  | cons c rest ih =>
    intro acc
    have hc := hds c (by simp)
    have hcb : ('0' ≤ c && c ≤ '9') = true := by
      simp only [Bool.and_eq_true, decide_eq_true_eq]
      exact hc
    have hdv : digitVal c = some (c.toNat - 48) := by
      unfold digitVal
      rw [if_pos hcb]
    rw [show digitsToNatAux acc (c :: rest) =
      (match digitVal c with
       | none => none
       | some d => digitsToNatAux (acc * 10 + d) rest) from rfl, hdv]
    dsimp only
    rw [ih (fun c2 h2 => hds c2 (by simp [h2])) (acc * 10 + (c.toNat - 48)),
      List.foldl_cons]

theorem atoi_digits (ds : List Char) (hne : ds ≠ [])
    (hds : ∀ c ∈ ds, '0' ≤ c ∧ c ≤ '9') :
    atoi (String.mk ds) =
      (if (natVal ds : Int) ≤ 2 ^ 63 - 1 then some ((natVal ds : Int)) else none) ∧
    atoi (String.mk ('+' :: ds)) =
      (if (natVal ds : Int) ≤ 2 ^ 63 - 1 then some ((natVal ds : Int)) else none) ∧
    atoi (String.mk ('-' :: ds)) =
      (if (natVal ds : Int) ≤ 2 ^ 63 then some (-(natVal ds : Int)) else none) := by
  obtain ⟨d0, drest, rfl⟩ := List.exists_cons_of_ne_nil hne
  have h0 := hds d0 (by simp)
  have hno : ¬(d0 = '-' ∨ d0 = '+') := by
    rintro (rfl | rfl)
    · exact absurd h0 (by decide)
    · exact absurd h0 (by decide)
  have hnm : ¬(d0 = '-') := fun hh => hno (Or.inl hh)
  have hdig := digitsToNatAux_digits (d0 :: drest) hds 0
  refine ⟨?_, ?_, ?_⟩
  · rw [show atoi (String.mk (d0 :: drest)) =
      (match (if d0 = '-' ∨ d0 = '+' then drest else d0 :: drest) with
       | [] => none
       | _ :: _ =>
         match digitsToNatAux 0 (if d0 = '-' ∨ d0 = '+' then drest else d0 :: drest) with
         | none => none
         | some n =>
           if d0 = '-' then
             if (n : Int) ≤ 2 ^ 63 then some (-(n : Int)) else none
           else
             if (n : Int) ≤ 2 ^ 63 - 1 then some ((n : Int)) else none) from rfl,
      if_neg hno]
    dsimp only
    rw [hdig]
    dsimp only
    rw [if_neg hnm]
    rfl
  · rw [show atoi (String.mk ('+' :: d0 :: drest)) =
      (match (if ('+' : Char) = '-' ∨ ('+' : Char) = '+' then d0 :: drest
              else '+' :: d0 :: drest) with
       | [] => none
       | _ :: _ =>
         match digitsToNatAux 0 (if ('+' : Char) = '-' ∨ ('+' : Char) = '+'
             then d0 :: drest else '+' :: d0 :: drest) with
         | none => none
         | some n =>
           if ('+' : Char) = '-' then
             if (n : Int) ≤ 2 ^ 63 then some (-(n : Int)) else none
           else
             if (n : Int) ≤ 2 ^ 63 - 1 then some ((n : Int)) else none) from rfl,
      if_pos (Or.inr rfl : ('+' : Char) = '-' ∨ ('+' : Char) = '+')]
    dsimp only
    rw [hdig]
    dsimp only
    rw [if_neg (show ¬(('+' : Char) = '-') from by decide)]
    rfl
  · rw [show atoi (String.mk ('-' :: d0 :: drest)) =
      (match (if ('-' : Char) = '-' ∨ ('-' : Char) = '+' then d0 :: drest
              else '-' :: d0 :: drest) with
       | [] => none
       | _ :: _ =>
         match digitsToNatAux 0 (if ('-' : Char) = '-' ∨ ('-' : Char) = '+'
             then d0 :: drest else '-' :: d0 :: drest) with
       | none => none
       | some n =>
         if ('-' : Char) = '-' then
           if (n : Int) ≤ 2 ^ 63 then some (-(n : Int)) else none
         else
           if (n : Int) ≤ 2 ^ 63 - 1 then some ((n : Int)) else none) from rfl,
      if_pos (Or.inl rfl : ('-' : Char) = '-' ∨ ('-' : Char) = '+')]
    dsimp only
    rw [hdig]
    dsimp only
    rw [if_pos (rfl : ('-' : Char) = '-')]
    rfl

/-- C10: a well-formed optionally-signed decimal numeral is parsed
exactly when its value fits a signed 64-bit integer — an out-of-range
numeral fails to parse, so its row is skipped like any other invalid
value — and adding a parsed value to an existing group total is 64-bit
machine addition, wrapping modulo `2 ^ 64` instead of failing. -/
theorem int64_boundary_behaviour :
    (∀ ds : List Char, ds ≠ [] → (∀ c ∈ ds, '0' ≤ c ∧ c ≤ '9') →
      atoi (String.mk ds) =
        (if (natVal ds : Int) ≤ 2 ^ 63 - 1 then some ((natVal ds : Int)) else none) ∧
      atoi (String.mk ('+' :: ds)) =
        (if (natVal ds : Int) ≤ 2 ^ 63 - 1 then some ((natVal ds : Int)) else none) ∧
      atoi (String.mk ('-' :: ds)) =
        (if (natVal ds : Int) ≤ 2 ^ 63 then some (-(natVal ds : Int)) else none)) ∧
    (∀ (acc : List (String × Int)) (k : String) (t v : Int),
      lookupAcc acc k = some t →
      lookupAcc (updateAcc acc k v) k = some (wrap64 (t + v))) := by
  refine ⟨atoi_digits, ?_⟩
  intro acc k t v h
  rw [lookupAcc_updateAcc_self acc k v, h]
  rfl

/-- Witness for C10: `2 ^ 63` is rejected as out of range while
`2 ^ 63 - 1` and `-2 ^ 63` parse, and adding `1` to a total of
`2 ^ 63 - 1` wraps around to `-2 ^ 63`. -/
theorem int64_boundary_behaviour_witness :
    atoi "9223372036854775808" = none ∧
    atoi "9223372036854775807" = some 9223372036854775807 ∧
    atoi "-9223372036854775808" = some (-9223372036854775808) ∧
    lookupAcc (updateAcc [("A", (9223372036854775807 : Int))] "A" 1) "A" =
      some (-9223372036854775808) := by
  refine ⟨?_, ?_, ?_, ?_⟩
  · have h : atoi "9223372036854775808" =
        (if (natVal ("9223372036854775808".data) : Int) ≤ 2 ^ 63 - 1
         then some ((natVal ("9223372036854775808".data) : Int)) else none) :=
      (int64_boundary_behaviour.1 ("9223372036854775808".data)
        (by decide) (by decide)).1
    rw [h]
    decide
  · have h : atoi "9223372036854775807" =
        (if (natVal ("9223372036854775807".data) : Int) ≤ 2 ^ 63 - 1
         then some ((natVal ("9223372036854775807".data) : Int)) else none) :=
      (int64_boundary_behaviour.1 ("9223372036854775807".data)
        (by decide) (by decide)).1
    rw [h]
    decide
  · have h : atoi "-9223372036854775808" =
        (if (natVal ("9223372036854775808".data) : Int) ≤ 2 ^ 63
         then some (-(natVal ("9223372036854775808".data) : Int)) else none) :=
      (int64_boundary_behaviour.1 ("9223372036854775808".data)
        (by decide) (by decide)).2.2
    rw [h]
    decide
  · have h := int64_boundary_behaviour.2 [("A", (9223372036854775807 : Int))] "A"
      9223372036854775807 1 (by rfl)
    rw [h]
    decide
